import Mathlib

set_option maxRecDepth 8192

/-!
Shallow embedding of the titanview fixture generators:
  * `scripts/gen_1gb.py` — the 1 GiB streaming benchmark-file generator
    (seeded rng, four entropy sections, chunked writing, magic splicing);
  * `examples/generate_sample.py` — the small fixed-layout `sample_file.tvts`
    fixture writer.

Bytes are modelled as `Nat` values (each < 256 where the source produces real
bytes); byte strings are `List Nat`.  The interpreter-provided pseudo-random
generator (`random.Random`) is modelled abstractly as a structure `RNG σ` of
state-passing functions, so that every theorem quantifies over the generator
algorithm exactly as the source leaves it unspecified; a small concrete
linear-congruential instance (`lcgRNG`) is used to produce closed witnesses.
-/

/-- Byte sequence of an ASCII string (the `str.encode("ascii")` of the source). -/
def strBytes (s : String) : List Nat :=
  s.toList.map Char.toNat

/-- Two little-endian bytes of a 16-bit value (`struct.pack "<H"`). -/
def le16 (n : Nat) : List Nat :=
  [n % 256, n / 256 % 256]

/-- Four little-endian bytes of a 32-bit value (`struct.pack "<I"`). -/
def le32 (n : Nat) : List Nat :=
  [n % 256, n / 256 % 256, n / 65536 % 256, n / 16777216 % 256]

/-- Eight little-endian bytes of a 64-bit value (`struct.pack "<q"`/`"<Q"` for
non-negative inputs below `2^63`). -/
def le64 (n : Nat) : List Nat :=
  [n % 256, n / 256 % 256, n / 65536 % 256, n / 16777216 % 256,
   n / 4294967296 % 256, n / 1099511627776 % 256,
   n / 281474976710656 % 256, n / 72057594037927936 % 256]

/-- The Python slice `l[a : a+len]`. -/
def pySlice (l : List Nat) (a len : Nat) : List Nat :=
  (l.drop a).take len

/-- The byte of `l` at index `p` (0 when out of range; always in range where used). -/
def byteAt (l : List Nat) (p : Nat) : Nat :=
  l.getD p 0

/-- The Python slice assignment `buf[a : a+len(d)] = d` (for `a + len(d) ≤ len(buf)`,
which is the only way the source uses it). -/
def overwrite (buf : List Nat) (a : Nat) (d : List Nat) : List Nat :=
  buf.take a ++ d ++ buf.drop (a + d.length)

/-- Abstract interface of the seeded pseudo-random source (`random.Random`):
`init` is the constructor from a seed, `randint lo hi` the inclusive-range
integer draw, `choiceIdx n` the index drawn by `rng.choice` on a length-`n`
sequence, `getrandbits8` one draw of `rng.getrandbits(8)`, and `randbytes n`
the draw of `rng.randbytes(n)`.  All are pure state-passing functions, exactly
as the source threads one generator object through the whole run. -/
structure RNG (σ : Type) where
  init : Nat → σ
  randint : Nat → Nat → σ → Nat × σ
  choiceIdx : Nat → σ → Nat × σ
  getrandbits8 : σ → Nat × σ
  randbytes : Nat → σ → List Nat × σ

/-! ## gen_1gb.py : constants and magic tables -/

/-- `TARGET_SIZE = 1 * 1024 * 1024 * 1024`. -/
def TARGET_SIZE : Nat := 1 * 1024 * 1024 * 1024

/-- The `MAGICS` dictionary: known magic byte patterns, by name
(unknown names map to `[]`; every lookup in the source uses a present name). -/
def MAGICS : String → List Nat
  | "ELF" => strBytes "\x7fELF" ++ [0x02, 0x01, 0x01, 0x00] ++ List.replicate 8 0
  | "PNG" => [0x89] ++ strBytes "PNG" ++ [0x0d, 0x0a, 0x1a, 0x0a] ++ List.replicate 8 0
  | "PDF" => strBytes "%PDF-1.7\n" ++ List.replicate 6 0
  | "ZIP" => strBytes "PK" ++ [0x03, 0x04] ++ List.replicate 12 0
  | "JPEG" => [0xff, 0xd8, 0xff, 0xe0] ++ List.replicate 12 0
  | _ => []

/-- `MAGIC_OFFSETS`: the offsets at which magics are planted, in source order. -/
def MAGIC_OFFSETS : List (Nat × String) :=
  [(0, "ELF"),
   (1024, "PNG"),
   (50 * 1024 * 1024, "ELF"),
   (100 * 1024 * 1024, "PDF"),
   (200 * 1024 * 1024, "ZIP"),
   (333 * 1024 * 1024, "JPEG"),
   (500 * 1024 * 1024, "ELF"),
   (512 * 1024 * 1024, "PNG"),
   (750 * 1024 * 1024, "PDF"),
   (900 * 1024 * 1024, "ZIP"),
   (TARGET_SIZE - 1024, "ELF")]

/-- The precomputed `magic_map` of `main` (offset ↦ pattern, in insertion order;
the offsets are pairwise distinct so the dict holds all eleven entries). -/
def MAGIC_MAP : List (Nat × List Nat) :=
  MAGIC_OFFSETS.map (fun p => (p.1, MAGICS p.2))

/-! ## gen_1gb.py : entropy profile generators -/

/-- The `levels` vocabulary of `gen_ascii_log`. -/
def levels : List String := ["INFO", "WARN", "ERROR", "DEBUG", "TRACE"]

/-- The `modules` vocabulary of `gen_ascii_log`. -/
def modules : List String := ["server", "db", "auth", "cache", "net", "io", "parser", "render"]

/-- The `messages` vocabulary of `gen_ascii_log`. -/
def messages : List String :=
  ["request processed successfully",
   "connection established",
   "cache miss for key",
   "timeout waiting for response",
   "retrying operation",
   "invalid input received",
   "shutting down gracefully",
   "loaded configuration from disk",
   "spawned worker thread",
   "checksum verification passed"]

/-- Python `f"{s:<w>s}"`: left justify `s` with spaces to width `w` (no truncation). -/
def padTo (w : Nat) (s : String) : String :=
  s ++ String.mk (List.replicate (w - s.length) ' ')

/-- One formatted log line, `f"[{ts}] {level:5s} {mod:8s} | {msg}\n"` encoded to ASCII. -/
def logLine (ts li mi msgi : Nat) : List Nat :=
  strBytes "[" ++ strBytes (toString ts) ++ strBytes "] "
    ++ strBytes (padTo 5 (levels.getD li "")) ++ strBytes " "
    ++ strBytes (padTo 8 (modules.getD mi "")) ++ strBytes " | "
    ++ strBytes (messages.getD msgi "") ++ strBytes "\n"

theorem logLine_length_pos (ts li mi msgi : Nat) : 0 < (logLine ts li mi msgi).length := by
  have h : (strBytes "[").length = 1 := by decide
  simp only [logLine, List.length_append]
  omega

/-- The `while len(buf) < size` loop of `gen_ascii_log`: `ts` is the running
timestamp (local to one call), `buf` the accumulated bytes. -/
def logLoop {σ : Type} (rng : RNG σ) (size : Nat) (ts : Nat) (s : σ) (buf : List Nat) :
    List Nat × σ :=
  if h : buf.length < size then
    let d := rng.randint 1 5000 s
    let ts' := ts + d.1
    let li := rng.choiceIdx levels.length d.2
    let mi := rng.choiceIdx modules.length li.2
    let msgi := rng.choiceIdx messages.length mi.2
    logLoop rng size ts' msgi.2 (buf ++ logLine ts' li.1 mi.1 msgi.1)
  else (buf, s)
termination_by size - buf.length
decreasing_by
  have := logLine_length_pos (ts + (rng.randint 1 5000 s).1)
      (rng.choiceIdx levels.length (rng.randint 1 5000 s).2).1
      (rng.choiceIdx modules.length (rng.choiceIdx levels.length (rng.randint 1 5000 s).2).2).1
      (rng.choiceIdx messages.length (rng.choiceIdx modules.length (rng.choiceIdx levels.length (rng.randint 1 5000 s).2).2).2).1
  simp only [List.length_append]
  omega

/-- `gen_ascii_log(rng, size)`: fake log lines, truncated to exactly `size` bytes.
The timestamp base 1700000000 is re-installed on every call. -/
def gen_ascii_log {σ : Type} (rng : RNG σ) (size : Nat) (s : σ) : List Nat × σ :=
  let r := logLoop rng size 1700000000 s []
  (r.1.take size, r.2)

/-- Sixteen successive `rng.getrandbits(8)` draws (the record payload). -/
def rngBytesN {σ : Type} (rng : RNG σ) : Nat → σ → List Nat × σ
  | 0, s => ([], s)
  | n + 1, s =>
    let b := rng.getrandbits8 s
    let r := rngBytesN rng n b.2
    (b.1 :: r.1, r.2)

/-- One 32-byte structured record for id `recId`:
`struct.pack("<IqI", rec_id, ts, val)` followed by the 16-byte payload, with
`ts = 1700000000 + rec_id * 100 + rng.randint(0, 50)` and
`val = rng.randint(0, 1_000_000)`. -/
def mkRecord {σ : Type} (rng : RNG σ) (recId : Nat) (s : σ) : List Nat × σ :=
  let j := rng.randint 0 50 s
  let v := rng.randint 0 1000000 j.2
  let p := rngBytesN rng 16 v.2
  (le32 recId ++ le64 (1700000000 + recId * 100 + j.1) ++ le32 v.1 ++ p.1, p.2)

theorem rngBytesN_length {σ : Type} (rng : RNG σ) :
    ∀ (n : Nat) (s : σ), (rngBytesN rng n s).1.length = n := by
  intro n
  induction n with
  | zero => intro s; rfl
  | succ k ih => intro s; simp [rngBytesN, ih]

theorem mkRecord_length {σ : Type} (rng : RNG σ) (recId : Nat) (s : σ) :
    (mkRecord rng recId s).1.length = 32 := by
  simp [mkRecord, le32, le64, rngBytesN_length]

/-- The `while len(buf) < size` loop of `gen_structured_records`: the record id
counter `recId` is local to one call (it starts again at 0 on every call). -/
def structLoop {σ : Type} (rng : RNG σ) (size : Nat) (recId : Nat) (s : σ) (buf : List Nat) :
    List Nat × σ :=
  if h : buf.length < size then
    let r := mkRecord rng recId s
    structLoop rng size (recId + 1) r.2 (buf ++ r.1)
  else (buf, s)
termination_by size - buf.length
decreasing_by
  have := mkRecord_length rng recId s
  simp only [List.length_append]
  omega

/-- `gen_structured_records(rng, size)`: packed 32-byte records, truncated to
exactly `size` bytes; `rec_id` restarts at 0 on each call. -/
def gen_structured_records {σ : Type} (rng : RNG σ) (size : Nat) (s : σ) : List Nat × σ :=
  let r := structLoop rng size 0 s []
  (r.1.take size, r.2)

/-- `gen_random_data(rng, size)`: `rng.randbytes(size)`. -/
def gen_random_data {σ : Type} (rng : RNG σ) (size : Nat) (s : σ) : List Nat × σ :=
  rng.randbytes size s

/-- `gen_zeros(size)`: `b"\x00" * size`; takes no generator argument at all. -/
def gen_zeros (size : Nat) : List Nat :=
  List.replicate size 0

/-! ## gen_1gb.py : chunked writer -/

/-- The body of the inner `for mo, mdata in magic_map.items()` loop of `main`:
plant one magic into the chunk when its whole span lies inside the chunk
(`0 <= rel < len(chunk) and rel + len(mdata) <= len(chunk)`). -/
def plantMagic (written : Nat) (ch : List Nat) (mo : Nat) (d : List Nat) : List Nat :=
  if written ≤ mo ∧ mo - written < ch.length ∧ mo - written + d.length ≤ ch.length then
    overwrite ch (mo - written) d
  else ch

/-- The full `for mo, mdata in magic_map.items()` loop over a chunk, in dict
insertion order. -/
def spliceMagics (ms : List (Nat × List Nat)) (written : Nat) (chunk : List Nat) : List Nat :=
  ms.foldl (fun ch p => plantMagic written ch p.1 p.2) chunk

/-- The common shape of the four `while section_written < ...` writer loops of
`main`: take the next chunk of `min cap (size - sw)` bytes from `step`
(which receives the running block index, used only by the mixed section),
splice the magics at absolute offset `written`, append to the output and
advance.  `out` is the sequence of bytes already written to the file. -/
def chunkLoop {σ : Type} (ms : List (Nat × List Nat)) (step : Nat → Nat → σ → List Nat × σ)
    (cap : Nat) (written sw size idx : Nat) (s : σ) (out : List Nat) :
    List Nat × Nat × σ :=
  if h : sw < size ∧ 0 < cap then
    let csz := min cap (size - sw)
    let raw := step idx csz s
    let chunk := spliceMagics ms written raw.1
    chunkLoop ms step cap (written + csz) (sw + csz) size (idx + 1) raw.2 (out ++ chunk)
  else (out, written, s)
termination_by size - sw
decreasing_by omega

/-- One of the first three section loops of `main` (the generator does not see
the chunk index). -/
def writeSection {σ : Type} (ms : List (Nat × List Nat)) (gen : Nat → σ → List Nat × σ)
    (cap : Nat) (written sw size : Nat) (s : σ) (out : List Nat) : List Nat × Nat × σ :=
  chunkLoop ms (fun _ n s => gen n s) cap written sw size 0 s out

/-- The per-block content choice of section 4: even `block_idx` gives zeros
(no generator state is consumed), odd gives `gen_random_data`. -/
def mixStep {σ : Type} (rng : RNG σ) (idx csz : Nat) (s : σ) : List Nat × σ :=
  if idx % 2 = 0 then (gen_zeros csz, s) else gen_random_data rng csz s

/-- The fourth section loop of `main` (alternating 1 MiB zero/random blocks,
`block_idx` starting at 0). -/
def writeMixed {σ : Type} (ms : List (Nat × List Nat)) (rng : RNG σ) (blockSize : Nat)
    (written sw remaining : Nat) (s : σ) (out : List Nat) : List Nat × Nat × σ :=
  chunkLoop ms (mixStep rng) blockSize written sw remaining 0 s out

/-- `SECTION_SIZE = 256 * 1024 * 1024`. -/
def SECTION_SIZE : Nat := 256 * 1024 * 1024

/-- `CHUNK = 4 * 1024 * 1024`. -/
def CHUNK : Nat := 4 * 1024 * 1024

/-- The `block_size = 1 * 1024 * 1024` of section 4. -/
def BLOCK_SIZE : Nat := 1 * 1024 * 1024

/-- Section 1 of `main`: ASCII logs over `[0, 256 MiB)`. -/
def stage1 {σ : Type} (rng : RNG σ) (s0 : σ) : List Nat × Nat × σ :=
  writeSection MAGIC_MAP (gen_ascii_log rng) CHUNK 0 0 SECTION_SIZE s0 []

/-- Sections 1–2 of `main`: structured records over `[256 MiB, 512 MiB)`. -/
def stage2 {σ : Type} (rng : RNG σ) (s0 : σ) : List Nat × Nat × σ :=
  let r := stage1 rng s0
  writeSection MAGIC_MAP (gen_structured_records rng) CHUNK r.2.1 0 SECTION_SIZE r.2.2 r.1

/-- Sections 1–3 of `main`: random data over `[512 MiB, 768 MiB)`. -/
def stage3 {σ : Type} (rng : RNG σ) (s0 : σ) : List Nat × Nat × σ :=
  let r := stage2 rng s0
  writeSection MAGIC_MAP (gen_random_data rng) CHUNK r.2.1 0 SECTION_SIZE r.2.2 r.1

/-- All four sections of `main`: the mixed section covers
`[768 MiB, TARGET_SIZE)` in alternating 1 MiB blocks. -/
def stage4 {σ : Type} (rng : RNG σ) (s0 : σ) : List Nat × Nat × σ :=
  let r := stage3 rng s0
  writeMixed MAGIC_MAP rng BLOCK_SIZE r.2.1 0 (TARGET_SIZE - r.2.1) r.2.2 r.1

/-- The bytes component of a writer-loop result. -/
def outBytes {σ : Type} (r : List Nat × Nat × σ) : List Nat :=
  r.1

/-- The complete byte sequence `main` writes to the output file, as a function
of the generator implementation and its initial state. -/
def mainBytes {σ : Type} (rng : RNG σ) (s0 : σ) : List Nat :=
  outBytes (stage4 rng s0)

/-- One whole run of `main`: the generator is seeded (`random.Random(42)`), the
bytes are produced, and the wall-clock readings `tStart`/`tEnd` taken by
`time.time()` enter only the reported elapsed-seconds statistic, never the
bytes. -/
def mainRun {σ : Type} (rng : RNG σ) (seed : Nat) (tStart tEnd : Nat) : List Nat × Nat :=
  (mainBytes rng (rng.init seed), tEnd - tStart)

/-! ## generate_sample.py : the fixed-layout fixture -/

/-- The 64-byte `sample_file.tvts` header, field writes in source order. -/
def sampleHeader : List Nat :=
  strBytes "TVTS" ++ [1, 5] ++ le16 0x0011 ++ [3] ++ [0, 0, 0]
    ++ le32 64 ++ le32 256 ++ le16 16 ++ le16 0xABCD ++ le64 1706500000
    ++ (strBytes "example_data_file" ++ List.replicate (32 - (strBytes "example_data_file").length) 0)

/-- One 16-byte data-table entry, a function of its index `i`. -/
def sampleEntry (i : Nat) : List Nat :=
  [i, i * 2, i * 3, i * 4] ++ (List.range 12).map (fun j => (i + (j + 4)) ^^^ 0x55)

/-- The 256-byte data table: 16 entries of 16 bytes. -/
def sampleTable : List Nat :=
  ((List.range 16).map sampleEntry).flatten

/-- The literal ASCII text block. -/
def sampleText : List Nat :=
  strBytes ("This is sample text data in the TitanView test file format.\n"
    ++ "It demonstrates various data types and patterns.\n"
    ++ "You can use the Structure Inspector to parse the header.\n")

/-- One step of the pinned LCG: `state = (state * 1103515245 + 12345) & 0xFFFFFFFF`. -/
def lcgNext (s : Nat) : Nat :=
  (s * 1103515245 + 12345) % 4294967296

/-- `n` output bytes of the LCG from state `s`: each step first advances the
state, then emits `(state >> 16) & 0xFF`. -/
def lcgBytes : Nat → Nat → List Nat
  | 0, _ => []
  | n + 1, s =>
    let s' := lcgNext s
    (s' / 65536 % 256) :: lcgBytes n s'

/-- The 128-byte high-entropy section, seeded with `0xDEADBEEF`. -/
def sampleNoise : List Nat :=
  lcgBytes 128 0xDEADBEEF

/-- The whole `sample_file.tvts` byte sequence. -/
def sampleFile : List Nat :=
  sampleHeader ++ sampleTable ++ sampleText ++ sampleNoise ++ List.replicate 64 0

/-! ## A concrete generator instance (used for witnesses only) -/

/-- Iterated LCG byte draws, used as the concrete `randbytes`. -/
def lcgRandbytes : Nat → Nat → List Nat × Nat
  | 0, s => ([], s)
  | n + 1, s =>
    let s' := lcgNext s
    let r := lcgRandbytes n s'
    ((s' / 65536 % 256) :: r.1, r.2)

/-- A concrete, fully specified `RNG` instance over state `Nat`, built from the
pinned LCG.  It exists only so the abstract theorems can be instantiated on
closed inputs. -/
def lcgRNG : RNG Nat where
  init seed := seed % 4294967296
  randint lo hi s :=
    let s' := lcgNext s
    (lo + s' / 65536 % (hi - lo + 1), s')
  choiceIdx n s :=
    let s' := lcgNext s
    (s' / 65536 % n, s')
  getrandbits8 s :=
    let s' := lcgNext s
    (s' / 65536 % 256, s')
  randbytes n s := lcgRandbytes n s

/-! ## Slice and overwrite toolkit -/

theorem length_pySlice (l : List Nat) (a n : Nat) :
    (pySlice l a n).length = min n (l.length - a) := by
  simp [pySlice]

theorem pySlice_append_left (l₁ l₂ : List Nat) (a n : Nat) (h : a + n ≤ l₁.length) :
    pySlice (l₁ ++ l₂) a n = pySlice l₁ a n := by
  rw [pySlice, pySlice, List.drop_append_of_le_length (by omega),
    List.take_append_of_le_length (by simp; omega)]

theorem pySlice_append_shift (l₁ l₂ : List Nat) (a n : Nat) :
    pySlice (l₁ ++ l₂) (l₁.length + a) n = pySlice l₂ a n := by
  rw [pySlice, pySlice, ← List.drop_drop, List.drop_left]

theorem pySlice_take (l : List Nat) (m a n : Nat) (h : a + n ≤ m) :
    pySlice (l.take m) a n = pySlice l a n := by
  rw [pySlice, pySlice, List.drop_take, List.take_take, Nat.min_eq_left (by omega)]

theorem pySlice_pySlice (l : List Nat) (a m b n : Nat) (h : b + n ≤ m) :
    pySlice (pySlice l a m) b n = pySlice l (a + b) n := by
  rw [pySlice, pySlice, pySlice, List.drop_take, List.take_take,
    Nat.min_eq_left (by omega), List.drop_drop]

theorem byteAt_eq_of_pySlice_one (l₁ l₂ : List Nat) (p q : Nat)
    (h : pySlice l₁ p 1 = pySlice l₂ q 1) (hp : p < l₁.length) :
    byteAt l₁ p = byteAt l₂ q := by
  have h₁ : l₁.drop p = l₁[p] :: l₁.drop (p + 1) := List.drop_eq_getElem_cons hp
  have hq : q < l₂.length := by
    by_contra hc
    have hnil : l₂.drop q = [] := List.drop_eq_nil_of_le (by omega)
    rw [pySlice, pySlice, h₁, hnil] at h
    simp at h
    omega
  have h₂ : l₂.drop q = l₂[q] :: l₂.drop (q + 1) := List.drop_eq_getElem_cons hq
  rw [pySlice, pySlice, h₁, h₂] at h
  simp only [List.take_succ_cons, List.take_zero] at h
  rw [byteAt, byteAt, List.getD_eq_getElem?_getD, List.getD_eq_getElem?_getD,
    List.getElem?_eq_getElem hp, List.getElem?_eq_getElem hq]
  simpa using h

theorem pySlice_one_eq (l : List Nat) (p : Nat) (hp : p < l.length) :
    pySlice l p 1 = [byteAt l p] := by
  have h₁ : l.drop p = l[p] :: l.drop (p + 1) := List.drop_eq_getElem_cons hp
  rw [pySlice, h₁, byteAt, List.getD_eq_getElem?_getD, List.getElem?_eq_getElem hp]
  rfl

theorem overwrite_length (buf : List Nat) (a : Nat) (d : List Nat)
    (h : a + d.length ≤ buf.length) :
    (overwrite buf a d).length = buf.length := by
  simp [overwrite]
  omega

theorem pySlice_overwrite (buf : List Nat) (a : Nat) (d : List Nat)
    (h : a + d.length ≤ buf.length) :
    pySlice (overwrite buf a d) a d.length = d := by
  have ht : (buf.take a).length = a := by simp; omega
  rw [pySlice, overwrite, List.append_assoc, List.drop_left' ht, List.take_left' rfl]

theorem pySlice_overwrite_before (buf : List Nat) (a : Nat) (d : List Nat) (p n : Nat)
    (hd : p + n ≤ a) (h : a + d.length ≤ buf.length) :
    pySlice (overwrite buf a d) p n = pySlice buf p n := by
  have ht : (buf.take a).length = a := by simp; omega
  rw [pySlice, overwrite, List.append_assoc,
    List.drop_append_of_le_length (by omega),
    List.take_append_of_le_length (by simp; omega),
    List.drop_take, List.take_take, Nat.min_eq_left (by omega), pySlice]

theorem pySlice_overwrite_after (buf : List Nat) (a : Nat) (d : List Nat) (p n : Nat)
    (hd : a + d.length ≤ p) (h : a + d.length ≤ buf.length) :
    pySlice (overwrite buf a d) p n = pySlice buf p n := by
  have ht : (buf.take a ++ d).length = a + d.length := by simp; omega
  rw [pySlice, overwrite]
  have hp : p = (buf.take a ++ d).length + (p - a - d.length) := by omega
  rw [hp, List.drop_append, List.drop_drop, pySlice, ht]

/-! ## Splice lemmas -/

theorem spliceMagics_nil (written : Nat) (chunk : List Nat) :
    spliceMagics [] written chunk = chunk := rfl

theorem spliceMagics_cons (m : Nat × List Nat) (ms : List (Nat × List Nat))
    (written : Nat) (chunk : List Nat) :
    spliceMagics (m :: ms) written chunk
      = spliceMagics ms written (plantMagic written chunk m.1 m.2) := rfl

theorem plantMagic_length (written : Nat) (ch : List Nat) (mo : Nat) (d : List Nat) :
    (plantMagic written ch mo d).length = ch.length := by
  rw [plantMagic]
  split
  · next h => exact overwrite_length ch (mo - written) d h.2.2
  · rfl

theorem spliceMagics_length (ms : List (Nat × List Nat)) (written : Nat) :
    ∀ chunk : List Nat, (spliceMagics ms written chunk).length = chunk.length := by
  induction ms with
  | nil => intro chunk; rfl
  | cons m t ih =>
    intro chunk
    rw [spliceMagics_cons, ih, plantMagic_length]

theorem pySlice_plantMagic_frame (written : Nat) (ch : List Nat) (mo : Nat) (d : List Nat)
    (p n : Nat)
    (hdisj : written ≤ mo → mo - written < ch.length → mo - written + d.length ≤ ch.length →
      p + n ≤ mo - written ∨ mo - written + d.length ≤ p) :
    pySlice (plantMagic written ch mo d) p n = pySlice ch p n := by
  rw [plantMagic]
  split
  · next h =>
    rcases hdisj h.1 h.2.1 h.2.2 with hc | hc
    · exact pySlice_overwrite_before ch (mo - written) d p n hc h.2.2
    · exact pySlice_overwrite_after ch (mo - written) d p n hc h.2.2
  · rfl

theorem spliceMagics_frame (written p n : Nat) :
    ∀ (ms : List (Nat × List Nat)) (chunk : List Nat),
    (∀ md ∈ ms, written ≤ md.1 → md.1 - written < chunk.length →
      md.1 - written + md.2.length ≤ chunk.length →
      p + n ≤ md.1 - written ∨ md.1 - written + md.2.length ≤ p) →
    pySlice (spliceMagics ms written chunk) p n = pySlice chunk p n := by
  intro ms
  induction ms with
  | nil => intro chunk _; rfl
  | cons m t ih =>
    intro chunk hd
    rw [spliceMagics_cons, ih _ (by
      intro md hmd
      rw [plantMagic_length]
      exact hd md (List.mem_cons_of_mem m hmd))]
    exact pySlice_plantMagic_frame written chunk m.1 m.2 p n (hd m (List.mem_cons_self m t))

theorem spliceMagics_frame_cap (written p n cap : Nat) (ms : List (Nat × List Nat))
    (chunk : List Nat) (hlen : chunk.length = cap)
    (hc : ∀ md ∈ ms, written ≤ md.1 → md.1 - written < cap →
      md.1 - written + md.2.length ≤ cap →
      p + n ≤ md.1 - written ∨ md.1 - written + md.2.length ≤ p) :
    pySlice (spliceMagics ms written chunk) p n = pySlice chunk p n := by
  refine spliceMagics_frame written p n ms chunk ?_
  intro md hmd h1 h2 h3
  rw [hlen] at h2 h3
  exact hc md hmd h1 h2 h3

theorem spliceMagics_applied (written : Nat) (mo : Nat) (d : List Nat) :
    ∀ (ms : List (Nat × List Nat)) (chunk : List Nat),
    (mo, d) ∈ ms →
    (∀ md ∈ ms, md.1 = mo → md.2 = d) →
    (∀ md ∈ ms, md.1 ≠ mo → md.1 + md.2.length ≤ mo ∨ mo + d.length ≤ md.1) →
    written ≤ mo → mo - written < chunk.length → mo - written + d.length ≤ chunk.length →
    pySlice (spliceMagics ms written chunk) (mo - written) d.length = d := by
  intro ms
  induction ms with
  | nil => intro chunk hm; cases hm
  | cons m t ih =>
    intro chunk hm huniq hsep h1 h2 h3
    by_cases hmo : m.1 = mo
    · have hmd : m = (mo, d) := by
        have := huniq m (List.mem_cons_self m t) hmo
        cases m
        simp_all
      subst hmd
      rw [spliceMagics_cons]
      have hplant : plantMagic written chunk mo d = overwrite chunk (mo - written) d := by
        rw [plantMagic, if_pos ⟨h1, h2, h3⟩]
      by_cases hrest : (mo, d) ∈ t
      · rw [hplant]
        refine ih (overwrite chunk (mo - written) d) hrest
          (fun md hmd hmo2 => huniq md (List.mem_cons_of_mem _ hmd) hmo2)
          (fun md hmd hmo2 => hsep md (List.mem_cons_of_mem _ hmd) hmo2)
          h1 ?_ ?_
        · rw [overwrite_length chunk (mo - written) d h3]; exact h2
        · rw [overwrite_length chunk (mo - written) d h3]; exact h3
      · rw [hplant, spliceMagics_frame written (mo - written) d.length t
          (overwrite chunk (mo - written) d) ?_]
        · exact pySlice_overwrite chunk (mo - written) d h3
        · intro md hmd hw hlt hle
          have hne : md.1 ≠ mo := by
            intro hc
            exact hrest (by
              have := huniq md (List.mem_cons_of_mem _ hmd) hc
              have : md = (mo, d) := by cases md; simp_all
              rwa [this] at hmd)
          rcases hsep md (List.mem_cons_of_mem _ hmd) hne with hc | hc
          · right; omega
          · left; omega
    · have hmt : (mo, d) ∈ t := by
        rcases List.mem_cons.mp hm with hc | hc
        · exact absurd (by rw [← hc]) hmo
        · exact hc
      rw [spliceMagics_cons]
      refine ih (plantMagic written chunk m.1 m.2) hmt
        (fun md hmd hmo2 => huniq md (List.mem_cons_of_mem _ hmd) hmo2)
        (fun md hmd hmo2 => hsep md (List.mem_cons_of_mem _ hmd) hmo2)
        h1 ?_ ?_
      · rw [plantMagic_length]; exact h2
      · rw [plantMagic_length]; exact h3

/-! ## Writer-loop lemmas -/

theorem chunkLoop_eq_step {σ : Type} (ms : List (Nat × List Nat))
    (step : Nat → Nat → σ → List Nat × σ) (cap written sw size idx : Nat) (s : σ)
    (out : List Nat) (h : sw < size) (hcap : 0 < cap) :
    chunkLoop ms step cap written sw size idx s out
      = chunkLoop ms step cap (written + min cap (size - sw)) (sw + min cap (size - sw)) size
          (idx + 1) (step idx (min cap (size - sw)) s).2
          (out ++ spliceMagics ms written (step idx (min cap (size - sw)) s).1) := by
  rw [chunkLoop]
  exact dif_pos ⟨h, hcap⟩

theorem chunkLoop_eq_done {σ : Type} (ms : List (Nat × List Nat))
    (step : Nat → Nat → σ → List Nat × σ) (cap written sw size idx : Nat) (s : σ)
    (out : List Nat) (h : ¬(sw < size ∧ 0 < cap)) :
    chunkLoop ms step cap written sw size idx s out = (out, written, s) := by
  rw [chunkLoop]
  exact dif_neg h

theorem chunkLoop_extends {σ : Type} (ms : List (Nat × List Nat))
    (step : Nat → Nat → σ → List Nat × σ) (cap written sw size idx : Nat) (s : σ)
    (out : List Nat) :
    ∃ t, (chunkLoop ms step cap written sw size idx s out).1 = out ++ t := by
  by_cases h : sw < size ∧ 0 < cap
  · rw [chunkLoop_eq_step ms step cap written sw size idx s out h.1 h.2]
    obtain ⟨t, ht⟩ := chunkLoop_extends ms step cap (written + min cap (size - sw))
      (sw + min cap (size - sw)) size (idx + 1) (step idx (min cap (size - sw)) s).2
      (out ++ spliceMagics ms written (step idx (min cap (size - sw)) s).1)
    exact ⟨spliceMagics ms written (step idx (min cap (size - sw)) s).1 ++ t, by
      rw [ht, List.append_assoc]⟩
  · rw [chunkLoop_eq_done ms step cap written sw size idx s out h]
    exact ⟨[], by simp⟩
termination_by size - sw
decreasing_by
  have h1 := Nat.min_le_right cap (size - sw)
  have h2 : 0 < min cap (size - sw) := lt_min h.2 (by omega)
  omega

theorem chunkLoop_length {σ : Type} (ms : List (Nat × List Nat))
    (step : Nat → Nat → σ → List Nat × σ) (cap : Nat)
    (hstep : ∀ i n s, (step i n s).1.length = n) (hcap : 0 < cap)
    (written sw size idx : Nat) (s : σ) (out : List Nat) :
    (chunkLoop ms step cap written sw size idx s out).1.length = out.length + (size - sw) ∧
    (chunkLoop ms step cap written sw size idx s out).2.1 = written + (size - sw) := by
  by_cases h : sw < size
  · rw [chunkLoop_eq_step ms step cap written sw size idx s out h hcap]
    have hm1 := Nat.min_le_right cap (size - sw)
    have hm2 : 0 < min cap (size - sw) := lt_min hcap (by omega)
    have ih := chunkLoop_length ms step cap hstep hcap (written + min cap (size - sw))
      (sw + min cap (size - sw)) size (idx + 1) (step idx (min cap (size - sw)) s).2
      (out ++ spliceMagics ms written (step idx (min cap (size - sw)) s).1)
    rw [ih.1, ih.2, List.length_append, spliceMagics_length, hstep]
    omega
  · rw [chunkLoop_eq_done ms step cap written sw size idx s out (by omega)]
    constructor
    · simp; omega
    · simp; omega
termination_by size - sw
decreasing_by
  have h1 := Nat.min_le_right cap (size - sw)
  have h2 : 0 < min cap (size - sw) := lt_min hcap (by omega)
  omega

/-- State of the shared generator after `k` full chunks of size `cap`, starting
from block index `idx`. -/
def stepIter {σ : Type} (step : Nat → Nat → σ → List Nat × σ) (cap : Nat) :
    Nat → Nat → σ → σ
  | 0, _, s => s
  | k + 1, idx, s => stepIter step cap k (idx + 1) (step idx cap s).2

theorem chunkLoop_pySlice {σ : Type} (ms : List (Nat × List Nat))
    (step : Nat → Nat → σ → List Nat × σ) (cap : Nat)
    (hstep : ∀ i n s, (step i n s).1.length = n) (hcap : 0 < cap) :
    ∀ (k written sw size idx : Nat) (s : σ) (out : List Nat),
    cap ∣ (size - sw) → (k + 1) * cap ≤ size - sw →
    pySlice (chunkLoop ms step cap written sw size idx s out).1 (out.length + k * cap) cap
      = spliceMagics ms (written + k * cap) (step (idx + k) cap (stepIter step cap k idx s)).1 := by
  intro k
  induction k with
  | zero =>
    intro written sw size idx s out hdvd hk
    have hk1 : (0 + 1) * cap = cap := by ring
    rw [hk1] at hk
    have h1 : sw < size := by omega
    have hm : min cap (size - sw) = cap := Nat.min_eq_left (by omega)
    rw [chunkLoop_eq_step ms step cap written sw size idx s out h1 hcap, hm]
    obtain ⟨t, ht⟩ := chunkLoop_extends ms step cap (written + cap) (sw + cap) size (idx + 1)
      (step idx cap s).2 (out ++ spliceMagics ms written (step idx cap s).1)
    have hlen : (spliceMagics ms written (step idx cap s).1).length = cap := by
      rw [spliceMagics_length, hstep]
    rw [ht, List.append_assoc, Nat.zero_mul, pySlice_append_shift]
    rw [pySlice, List.drop_zero, List.take_append_of_le_length (by omega),
      List.take_of_length_le (by omega)]
    simp [stepIter]
  | succ k ih =>
    intro written sw size idx s out hdvd hk
    have hx : (k + 1 + 1) * cap = (k + 1) * cap + cap := by ring
    rw [hx] at hk
    have hy : 0 < (k + 1) * cap + cap := by positivity
    have h1 : sw < size := by omega
    have hle : cap ≤ size - sw := by omega
    have hm : min cap (size - sw) = cap := Nat.min_eq_left hle
    rw [chunkLoop_eq_step ms step cap written sw size idx s out h1 hcap, hm]
    have hdvd2 : cap ∣ (size - (sw + cap)) := by
      obtain ⟨c, hc⟩ := hdvd
      cases c with
      | zero => simp at hc; omega
      | succ c2 =>
        rw [Nat.mul_succ] at hc
        exact ⟨c2, by omega⟩
    have hk2 : (k + 1) * cap ≤ size - (sw + cap) := by omega
    have ihv := ih (written + cap) (sw + cap) size (idx + 1) (step idx cap s).2
      (out ++ spliceMagics ms written (step idx cap s).1) hdvd2 hk2
    have hlen : (spliceMagics ms written (step idx cap s).1).length = cap := by
      rw [spliceMagics_length, hstep]
    rw [List.length_append, hlen] at ihv
    have e1 : out.length + cap + k * cap = out.length + (k + 1) * cap := by ring
    have e2 : written + cap + k * cap = written + (k + 1) * cap := by ring
    have e3 : idx + 1 + k = idx + (k + 1) := by ring
    rw [e1, e2, e3] at ihv
    exact ihv

/-! ## Generator length lemmas -/

theorem logLoop_length_ge {σ : Type} (rng : RNG σ) (size : Nat) (ts : Nat) (s : σ)
    (buf : List Nat) : size ≤ (logLoop rng size ts s buf).1.length := by
  rw [logLoop]
  split
  · next h =>
    exact logLoop_length_ge rng size _ _ _
  · next h => simp; omega
termination_by size - buf.length
decreasing_by
  have := logLine_length_pos (ts + (rng.randint 1 5000 s).1)
      (rng.choiceIdx levels.length (rng.randint 1 5000 s).2).1
      (rng.choiceIdx modules.length (rng.choiceIdx levels.length (rng.randint 1 5000 s).2).2).1
      (rng.choiceIdx messages.length (rng.choiceIdx modules.length (rng.choiceIdx levels.length (rng.randint 1 5000 s).2).2).2).1
  simp only [List.length_append]
  omega

theorem gen_ascii_log_length {σ : Type} (rng : RNG σ) (size : Nat) (s : σ) :
    (gen_ascii_log rng size s).1.length = size := by
  have h := logLoop_length_ge rng size 1700000000 s []
  simp [gen_ascii_log]
  omega

theorem structLoop_length_ge {σ : Type} (rng : RNG σ) (size : Nat) (recId : Nat) (s : σ)
    (buf : List Nat) : size ≤ (structLoop rng size recId s buf).1.length := by
  rw [structLoop]
  split
  · next h =>
    exact structLoop_length_ge rng size _ _ _
  · next h => simp; omega
termination_by size - buf.length
decreasing_by
  have := mkRecord_length rng recId s
  simp only [List.length_append]
  omega

theorem gen_structured_records_length {σ : Type} (rng : RNG σ) (size : Nat) (s : σ) :
    (gen_structured_records rng size s).1.length = size := by
  have h := structLoop_length_ge rng size 0 s []
  simp [gen_structured_records]
  omega

theorem gen_zeros_length (size : Nat) : (gen_zeros size).length = size := by
  simp [gen_zeros]

/-! ## Structured-record decomposition -/

/-- Concatenation of `n` records with ids `recId, recId+1, …` against the
threaded generator state. -/
def recordsFrom {σ : Type} (rng : RNG σ) : Nat → Nat → σ → List Nat × σ
  | 0, _, s => ([], s)
  | n + 1, recId, s =>
    let r := mkRecord rng recId s
    let rest := recordsFrom rng n (recId + 1) r.2
    (r.1 ++ rest.1, rest.2)

/-- Number of loop iterations of `structLoop` needed to produce `m` bytes. -/
def numRecs (m : Nat) : Nat := (m + 31) / 32

/-- Generator state after emitting `i` records starting from id `recId`. -/
def recIterState {σ : Type} (rng : RNG σ) : Nat → Nat → σ → σ
  | 0, _, s => s
  | i + 1, recId, s => recIterState rng i (recId + 1) (mkRecord rng recId s).2

theorem structLoop_eq_recordsFrom {σ : Type} (rng : RNG σ) (size : Nat) (recId : Nat) (s : σ)
    (buf : List Nat) :
    (structLoop rng size recId s buf).1
      = buf ++ (recordsFrom rng (numRecs (size - buf.length)) recId s).1 := by
  rw [structLoop]
  split
  · next h =>
    have hrec := structLoop_eq_recordsFrom rng size (recId + 1) (mkRecord rng recId s).2
      (buf ++ (mkRecord rng recId s).1)
    rw [hrec]
    have hl : (buf ++ (mkRecord rng recId s).1).length = buf.length + 32 := by
      simp [mkRecord_length]
    rw [hl]
    have hn : numRecs (size - buf.length) = numRecs (size - (buf.length + 32)) + 1 := by
      rw [numRecs, numRecs]
      omega
    rw [hn, List.append_assoc]
    rfl
  · next h =>
    have : size - buf.length = 0 := by omega
    rw [this]
    simp [numRecs, recordsFrom]
termination_by size - buf.length
decreasing_by
  have := mkRecord_length rng recId s
  simp only [List.length_append]
  omega

theorem recordsFrom_length {σ : Type} (rng : RNG σ) :
    ∀ (n recId : Nat) (s : σ), (recordsFrom rng n recId s).1.length = 32 * n := by
  intro n
  induction n with
  | zero => intro recId s; rfl
  | succ m ih =>
    intro recId s
    show ((mkRecord rng recId s).1 ++ (recordsFrom rng m (recId + 1) (mkRecord rng recId s).2).1).length = _
    rw [List.length_append, mkRecord_length, ih]
    ring

theorem recordsFrom_pySlice {σ : Type} (rng : RNG σ) :
    ∀ (i n recId : Nat) (s : σ), i < n →
    pySlice (recordsFrom rng n recId s).1 (32 * i) 32
      = (mkRecord rng (recId + i) (recIterState rng i recId s)).1 := by
  intro i
  induction i with
  | zero =>
    intro n recId s hn
    cases n with
    | zero => omega
    | succ m =>
      show pySlice ((mkRecord rng recId s).1 ++ _) 0 32 = _
      rw [pySlice, List.drop_zero,
        List.take_append_of_le_length (by rw [mkRecord_length]),
        List.take_of_length_le (by rw [mkRecord_length])]
      simp [recIterState]
  | succ i ih =>
    intro n recId s hn
    cases n with
    | zero => omega
    | succ m =>
      show pySlice ((mkRecord rng recId s).1 ++ (recordsFrom rng m (recId + 1) (mkRecord rng recId s).2).1) (32 * (i + 1)) 32 = _
      have h32 : 32 * (i + 1) = (mkRecord rng recId s).1.length + 32 * i := by
        rw [mkRecord_length]; ring
      rw [h32, pySlice_append_shift, ih m (recId + 1) (mkRecord rng recId s).2 (by omega)]
      have : recId + 1 + i = recId + (i + 1) := by ring
      rw [this]
      rfl

theorem mkRecord_id_pySlice {σ : Type} (rng : RNG σ) (recId : Nat) (s : σ) :
    pySlice (mkRecord rng recId s).1 0 4 = le32 recId := by
  simp [mkRecord, le32, le64, pySlice]

theorem mkRecord_ts_pySlice {σ : Type} (rng : RNG σ) (recId : Nat) (s : σ) :
    pySlice (mkRecord rng recId s).1 4 8
      = le64 (1700000000 + recId * 100 + (rng.randint 0 50 s).1) := by
  simp [mkRecord, le32, le64, pySlice]

theorem gen_structured_id_pySlice {σ : Type} (rng : RNG σ) (size : Nat) (s : σ) (i : Nat)
    (h : 32 * (i + 1) ≤ size) :
    pySlice (gen_structured_records rng size s).1 (32 * i) 4 = le32 i := by
  show pySlice ((structLoop rng size 0 s []).1.take size) (32 * i) 4 = le32 i
  rw [pySlice_take _ size _ _ (by omega), structLoop_eq_recordsFrom, List.nil_append]
  simp only [List.length_nil, Nat.sub_zero]
  have hpp := pySlice_pySlice (recordsFrom rng (numRecs size) 0 s).1
    (32 * i) 32 0 4 (by omega)
  rw [Nat.add_zero] at hpp
  rw [← hpp, recordsFrom_pySlice rng i _ 0 s (by rw [numRecs]; omega)]
  rw [Nat.zero_add, mkRecord_id_pySlice]

theorem gen_structured_ts_pySlice {σ : Type} (rng : RNG σ) (size : Nat) (s : σ) (i : Nat)
    (h : 32 * (i + 1) ≤ size) :
    pySlice (gen_structured_records rng size s).1 (32 * i + 4) 8
      = le64 (1700000000 + i * 100 + (rng.randint 0 50 (recIterState rng i 0 s)).1) := by
  show pySlice ((structLoop rng size 0 s []).1.take size) (32 * i + 4) 8 = _
  rw [pySlice_take _ size _ _ (by omega), structLoop_eq_recordsFrom, List.nil_append]
  simp only [List.length_nil, Nat.sub_zero]
  rw [← pySlice_pySlice (recordsFrom rng (numRecs size) 0 s).1
    (32 * i) 32 4 8 (by omega)]
  rw [recordsFrom_pySlice rng i _ 0 s (by rw [numRecs]; omega)]
  rw [Nat.zero_add, mkRecord_ts_pySlice]

/-! ## Absolute-offset extraction through the writer loop -/

theorem chunkLoop_magic {σ : Type} (ms : List (Nat × List Nat))
    (step : Nat → Nat → σ → List Nat × σ) (cap : Nat)
    (hstep : ∀ i n s, (step i n s).1.length = n) (hcap : 0 < cap)
    (written size : Nat) (s : σ) (out : List Nat)
    (hout : out.length = written) (hdvd : cap ∣ size)
    (mo : Nat) (d : List Nat) (k rel : Nat)
    (hmo : mo = written + k * cap + rel)
    (hrel : rel + d.length ≤ cap) (hd : 0 < d.length)
    (hk : (k + 1) * cap ≤ size)
    (hmem : (mo, d) ∈ ms)
    (huniq : ∀ md ∈ ms, md.1 = mo → md.2 = d)
    (hsep : ∀ md ∈ ms, md.1 ≠ mo → md.1 + md.2.length ≤ mo ∨ mo + d.length ≤ md.1) :
    pySlice (chunkLoop ms step cap written 0 size 0 s out).1 mo d.length = d := by
  have hsl := chunkLoop_pySlice ms step cap hstep hcap k written 0 size 0 s out
    (by simpa using hdvd) (by simpa using hk)
  have hraw : (step (0 + k) cap (stepIter step cap k 0 s)).1.length = cap := hstep _ _ _
  have hmo2 : mo = (out.length + k * cap) + rel := by omega
  rw [hmo2, ← pySlice_pySlice _ (out.length + k * cap) cap rel d.length hrel, hsl]
  have hw : written + k * cap ≤ mo := by omega
  have hrel2 : mo - (written + k * cap) = rel := by omega
  have happ := spliceMagics_applied (written + k * cap) mo d ms
    (step (0 + k) cap (stepIter step cap k 0 s)).1 hmem huniq hsep hw
    (by rw [hraw]; omega) (by rw [hraw]; omega)
  rw [hrel2] at happ
  exact happ

theorem chunkLoop_byteAt_frame {σ : Type} (ms : List (Nat × List Nat))
    (step : Nat → Nat → σ → List Nat × σ) (cap : Nat)
    (hstep : ∀ i n s, (step i n s).1.length = n) (hcap : 0 < cap)
    (written size : Nat) (s : σ) (out : List Nat)
    (hout : out.length = written) (hdvd : cap ∣ size)
    (p k r : Nat) (hp : p = written + k * cap + r) (hr : r < cap)
    (hk : (k + 1) * cap ≤ size)
    (hfr : ∀ md ∈ ms, written + k * cap ≤ md.1 → md.1 - (written + k * cap) < cap →
      md.1 - (written + k * cap) + md.2.length ≤ cap →
      r + 1 ≤ md.1 - (written + k * cap) ∨ md.1 - (written + k * cap) + md.2.length ≤ r) :
    byteAt (chunkLoop ms step cap written 0 size 0 s out).1 p
      = byteAt (step k cap (stepIter step cap k 0 s)).1 r := by
  have hsl := chunkLoop_pySlice ms step cap hstep hcap k written 0 size 0 s out
    (by simpa using hdvd) (by simpa using hk)
  have hraw : (step (0 + k) cap (stepIter step cap k 0 s)).1.length = cap := hstep _ _ _
  have hone : pySlice (chunkLoop ms step cap written 0 size 0 s out).1 p 1
      = pySlice (step (0 + k) cap (stepIter step cap k 0 s)).1 r 1 := by
    have hp2 : p = (out.length + k * cap) + r := by omega
    rw [hp2, ← pySlice_pySlice _ (out.length + k * cap) cap r 1 (by omega), hsl]
    refine spliceMagics_frame (written + k * cap) r 1 ms _ ?_
    intro md hmd h1 h2 h3
    rw [hraw] at h2 h3
    exact hfr md hmd h1 h2 h3
  have hlen := (chunkLoop_length ms step cap hstep hcap written 0 size 0 s out).1
  have hkk : (k + 1) * cap = k * cap + cap := by ring
  have hplt : p < (chunkLoop ms step cap written 0 size 0 s out).1.length := by
    rw [hlen]
    omega
  have := byteAt_eq_of_pySlice_one _ _ p r hone hplt
  rw [Nat.zero_add] at this
  exact this

/-! ## Stage-level size bookkeeping -/

theorem mixStep_length {σ : Type} (rng : RNG σ)
    (hb : ∀ n s, (rng.randbytes n s).1.length = n) (i n : Nat) (s : σ) :
    (mixStep rng i n s).1.length = n := by
  rw [mixStep]
  split
  · exact gen_zeros_length n
  · exact hb n s

theorem stage1_len {σ : Type} (rng : RNG σ) (s0 : σ) :
    (stage1 rng s0).1.length = SECTION_SIZE ∧ (stage1 rng s0).2.1 = SECTION_SIZE := by
  have h := chunkLoop_length MAGIC_MAP (fun _ n s => gen_ascii_log rng n s) CHUNK
    (fun _ n s => gen_ascii_log_length rng n s) (by norm_num [CHUNK]) 0 0 SECTION_SIZE 0 s0 []
  simp only [stage1, writeSection]
  constructor
  · simpa using h.1
  · simpa using h.2

theorem stage2_len {σ : Type} (rng : RNG σ) (s0 : σ) :
    (stage2 rng s0).1.length = 2 * SECTION_SIZE ∧ (stage2 rng s0).2.1 = 2 * SECTION_SIZE := by
  have h := chunkLoop_length MAGIC_MAP (fun _ n s => gen_structured_records rng n s) CHUNK
    (fun _ n s => gen_structured_records_length rng n s) (by norm_num [CHUNK])
    (stage1 rng s0).2.1 0 SECTION_SIZE 0 (stage1 rng s0).2.2 (stage1 rng s0).1
  have h1 := stage1_len rng s0
  simp only [stage2, writeSection]
  constructor
  · rw [h.1, h1.1]; omega
  · rw [h.2, h1.2]; omega

theorem stage3_len {σ : Type} (rng : RNG σ) (s0 : σ)
    (hb : ∀ n s, (rng.randbytes n s).1.length = n) :
    (stage3 rng s0).1.length = 3 * SECTION_SIZE ∧ (stage3 rng s0).2.1 = 3 * SECTION_SIZE := by
  have h := chunkLoop_length MAGIC_MAP (fun _ n s => gen_random_data rng n s) CHUNK
    (fun _ n s => hb n s) (by norm_num [CHUNK])
    (stage2 rng s0).2.1 0 SECTION_SIZE 0 (stage2 rng s0).2.2 (stage2 rng s0).1
  have h2 := stage2_len rng s0
  simp only [stage3, writeSection]
  constructor
  · rw [h.1, h2.1]; omega
  · rw [h.2, h2.2]; omega

theorem stage4_len {σ : Type} (rng : RNG σ) (s0 : σ)
    (hb : ∀ n s, (rng.randbytes n s).1.length = n) :
    (stage4 rng s0).1.length = TARGET_SIZE := by
  have h := chunkLoop_length MAGIC_MAP (mixStep rng) BLOCK_SIZE
    (mixStep_length rng hb) (by norm_num [BLOCK_SIZE])
    (stage3 rng s0).2.1 0 (TARGET_SIZE - (stage3 rng s0).2.1) 0
    (stage3 rng s0).2.2 (stage3 rng s0).1
  have h3 := stage3_len rng s0 hb
  simp only [stage4, writeMixed]
  have e1 : (3 : Nat) * SECTION_SIZE = 805306368 := by norm_num [SECTION_SIZE]
  have e2 : TARGET_SIZE = 1073741824 := by norm_num [TARGET_SIZE]
  rw [h.1, h3.1, h3.2, e1, e2]

theorem outBytes_def {σ : Type} (r : List Nat × Nat × σ) : outBytes r = r.1 := rfl

theorem mainBytes_def {σ : Type} (rng : RNG σ) (s0 : σ) :
    mainBytes rng s0 = outBytes (stage4 rng s0) := rfl

theorem mainBytes_length {σ : Type} (rng : RNG σ) (s0 : σ)
    (hb : ∀ n s, (rng.randbytes n s).1.length = n) :
    (mainBytes rng s0).length = TARGET_SIZE := by
  rw [mainBytes_def, outBytes_def]
  exact stage4_len rng s0 hb

/-! ## Per-section signature placement -/

theorem stage1_def {σ : Type} (rng : RNG σ) (s0 : σ) :
    stage1 rng s0 = chunkLoop MAGIC_MAP (fun _ n s => gen_ascii_log rng n s) CHUNK
      0 0 SECTION_SIZE 0 s0 [] := rfl

theorem stage2_def {σ : Type} (rng : RNG σ) (s0 : σ) :
    stage2 rng s0 = chunkLoop MAGIC_MAP (fun _ n s => gen_structured_records rng n s) CHUNK
      (stage1 rng s0).2.1 0 SECTION_SIZE 0 (stage1 rng s0).2.2 (stage1 rng s0).1 := rfl

theorem stage3_def {σ : Type} (rng : RNG σ) (s0 : σ) :
    stage3 rng s0 = chunkLoop MAGIC_MAP (fun _ n s => gen_random_data rng n s) CHUNK
      (stage2 rng s0).2.1 0 SECTION_SIZE 0 (stage2 rng s0).2.2 (stage2 rng s0).1 := rfl

theorem stage4_def {σ : Type} (rng : RNG σ) (s0 : σ) :
    stage4 rng s0 = chunkLoop MAGIC_MAP (mixStep rng) BLOCK_SIZE
      (stage3 rng s0).2.1 0 (TARGET_SIZE - (stage3 rng s0).2.1) 0
      (stage3 rng s0).2.2 (stage3 rng s0).1 := rfl

theorem pySlice_stage_lift (l₁ l₂ t : List Nat) (hext : l₂ = l₁ ++ t)
    (a n : Nat) (h : a + n ≤ l₁.length) : pySlice l₂ a n = pySlice l₁ a n := by
  rw [hext]
  exact pySlice_append_left l₁ t a n h

theorem mainBytes_magic_sec1 {σ : Type} (rng : RNG σ) (s0 : σ)
    (hb : ∀ n s, (rng.randbytes n s).1.length = n)
    (mo : Nat) (d : List Nat) (k rel : Nat)
    (hmo : mo = k * CHUNK + rel) (hrel : rel + d.length ≤ CHUNK) (hd : 0 < d.length)
    (hk : (k + 1) * CHUNK ≤ SECTION_SIZE)
    (hmem : (mo, d) ∈ MAGIC_MAP)
    (huniq : ∀ md ∈ MAGIC_MAP, md.1 = mo → md.2 = d)
    (hsep : ∀ md ∈ MAGIC_MAP, md.1 ≠ mo → md.1 + md.2.length ≤ mo ∨ mo + d.length ≤ md.1) :
    pySlice (mainBytes rng s0) mo d.length = d := by
  have hkk : (k + 1) * CHUNK = k * CHUNK + CHUNK := by ring
  have hbound : mo + d.length ≤ SECTION_SIZE := by omega
  have h1 : pySlice (stage1 rng s0).1 mo d.length = d := by
    rw [stage1_def]
    exact chunkLoop_magic MAGIC_MAP _ CHUNK (fun _ n s => gen_ascii_log_length rng n s)
      (by norm_num [CHUNK]) 0 SECTION_SIZE s0 [] rfl
      (by norm_num [CHUNK, SECTION_SIZE]) mo d k rel (by omega) hrel hd hk hmem huniq hsep
  have s1len := (stage1_len rng s0).1
  have s2len := (stage2_len rng s0).1
  have s3len := (stage3_len rng s0 hb).1
  obtain ⟨t2, ht2⟩ := chunkLoop_extends MAGIC_MAP
    (fun _ n s => gen_structured_records rng n s) CHUNK
    (stage1 rng s0).2.1 0 SECTION_SIZE 0 (stage1 rng s0).2.2 (stage1 rng s0).1
  have h2 : pySlice (stage2 rng s0).1 mo d.length = d := by
    rw [pySlice_stage_lift (stage1 rng s0).1 (stage2 rng s0).1 t2
      (by rw [stage2_def]; exact ht2) mo d.length (by omega)]
    exact h1
  obtain ⟨t3, ht3⟩ := chunkLoop_extends MAGIC_MAP
    (fun _ n s => gen_random_data rng n s) CHUNK
    (stage2 rng s0).2.1 0 SECTION_SIZE 0 (stage2 rng s0).2.2 (stage2 rng s0).1
  have h3 : pySlice (stage3 rng s0).1 mo d.length = d := by
    rw [pySlice_stage_lift (stage2 rng s0).1 (stage3 rng s0).1 t3
      (by rw [stage3_def]; exact ht3) mo d.length (by omega)]
    exact h2
  obtain ⟨t4, ht4⟩ := chunkLoop_extends MAGIC_MAP (mixStep rng) BLOCK_SIZE
    (stage3 rng s0).2.1 0 (TARGET_SIZE - (stage3 rng s0).2.1) 0
    (stage3 rng s0).2.2 (stage3 rng s0).1
  rw [mainBytes_def, outBytes_def]
  rw [pySlice_stage_lift (stage3 rng s0).1 (stage4 rng s0).1 t4
    (by rw [stage4_def]; exact ht4) mo d.length (by omega)]
  exact h3

theorem mainBytes_magic_sec2 {σ : Type} (rng : RNG σ) (s0 : σ)
    (hb : ∀ n s, (rng.randbytes n s).1.length = n)
    (mo : Nat) (d : List Nat) (k rel : Nat)
    (hmo : mo = SECTION_SIZE + k * CHUNK + rel) (hrel : rel + d.length ≤ CHUNK)
    (hd : 0 < d.length) (hk : (k + 1) * CHUNK ≤ SECTION_SIZE)
    (hmem : (mo, d) ∈ MAGIC_MAP)
    (huniq : ∀ md ∈ MAGIC_MAP, md.1 = mo → md.2 = d)
    (hsep : ∀ md ∈ MAGIC_MAP, md.1 ≠ mo → md.1 + md.2.length ≤ mo ∨ mo + d.length ≤ md.1) :
    pySlice (mainBytes rng s0) mo d.length = d := by
  have hkk : (k + 1) * CHUNK = k * CHUNK + CHUNK := by ring
  have hbound : mo + d.length ≤ 2 * SECTION_SIZE := by omega
  have s1o := (stage1_len rng s0).1
  have s1w := (stage1_len rng s0).2
  have s2len := (stage2_len rng s0).1
  have s3len := (stage3_len rng s0 hb).1
  have h2 : pySlice (stage2 rng s0).1 mo d.length = d := by
    rw [stage2_def]
    exact chunkLoop_magic MAGIC_MAP _ CHUNK (fun _ n s => gen_structured_records_length rng n s)
      (by norm_num [CHUNK]) (stage1 rng s0).2.1 SECTION_SIZE (stage1 rng s0).2.2
      (stage1 rng s0).1 (by rw [s1o, s1w]) (by norm_num [CHUNK, SECTION_SIZE])
      mo d k rel (by rw [s1w]; omega) hrel hd hk hmem huniq hsep
  obtain ⟨t3, ht3⟩ := chunkLoop_extends MAGIC_MAP
    (fun _ n s => gen_random_data rng n s) CHUNK
    (stage2 rng s0).2.1 0 SECTION_SIZE 0 (stage2 rng s0).2.2 (stage2 rng s0).1
  have h3 : pySlice (stage3 rng s0).1 mo d.length = d := by
    rw [pySlice_stage_lift (stage2 rng s0).1 (stage3 rng s0).1 t3
      (by rw [stage3_def]; exact ht3) mo d.length (by omega)]
    exact h2
  obtain ⟨t4, ht4⟩ := chunkLoop_extends MAGIC_MAP (mixStep rng) BLOCK_SIZE
    (stage3 rng s0).2.1 0 (TARGET_SIZE - (stage3 rng s0).2.1) 0
    (stage3 rng s0).2.2 (stage3 rng s0).1
  rw [mainBytes_def, outBytes_def]
  rw [pySlice_stage_lift (stage3 rng s0).1 (stage4 rng s0).1 t4
    (by rw [stage4_def]; exact ht4) mo d.length (by omega)]
  exact h3

theorem mainBytes_magic_sec3 {σ : Type} (rng : RNG σ) (s0 : σ)
    (hb : ∀ n s, (rng.randbytes n s).1.length = n)
    (mo : Nat) (d : List Nat) (k rel : Nat)
    (hmo : mo = 2 * SECTION_SIZE + k * CHUNK + rel) (hrel : rel + d.length ≤ CHUNK)
    (hd : 0 < d.length) (hk : (k + 1) * CHUNK ≤ SECTION_SIZE)
    (hmem : (mo, d) ∈ MAGIC_MAP)
    (huniq : ∀ md ∈ MAGIC_MAP, md.1 = mo → md.2 = d)
    (hsep : ∀ md ∈ MAGIC_MAP, md.1 ≠ mo → md.1 + md.2.length ≤ mo ∨ mo + d.length ≤ md.1) :
    pySlice (mainBytes rng s0) mo d.length = d := by
  have hkk : (k + 1) * CHUNK = k * CHUNK + CHUNK := by ring
  have hbound : mo + d.length ≤ 3 * SECTION_SIZE := by omega
  have s2o := (stage2_len rng s0).1
  have s2w := (stage2_len rng s0).2
  have s3len := (stage3_len rng s0 hb).1
  have h3 : pySlice (stage3 rng s0).1 mo d.length = d := by
    rw [stage3_def]
    exact chunkLoop_magic MAGIC_MAP _ CHUNK (fun _ n s => hb n s)
      (by norm_num [CHUNK]) (stage2 rng s0).2.1 SECTION_SIZE (stage2 rng s0).2.2
      (stage2 rng s0).1 (by rw [s2o, s2w]) (by norm_num [CHUNK, SECTION_SIZE])
      mo d k rel (by rw [s2w]; omega) hrel hd hk hmem huniq hsep
  obtain ⟨t4, ht4⟩ := chunkLoop_extends MAGIC_MAP (mixStep rng) BLOCK_SIZE
    (stage3 rng s0).2.1 0 (TARGET_SIZE - (stage3 rng s0).2.1) 0
    (stage3 rng s0).2.2 (stage3 rng s0).1
  rw [mainBytes_def, outBytes_def]
  rw [pySlice_stage_lift (stage3 rng s0).1 (stage4 rng s0).1 t4
    (by rw [stage4_def]; exact ht4) mo d.length (by omega)]
  exact h3

theorem mainBytes_magic_sec4 {σ : Type} (rng : RNG σ) (s0 : σ)
    (hb : ∀ n s, (rng.randbytes n s).1.length = n)
    (mo : Nat) (d : List Nat) (k rel : Nat)
    (hmo : mo = 3 * SECTION_SIZE + k * BLOCK_SIZE + rel)
    (hrel : rel + d.length ≤ BLOCK_SIZE)
    (hd : 0 < d.length) (hk : (k + 1) * BLOCK_SIZE ≤ TARGET_SIZE - 3 * SECTION_SIZE)
    (hmem : (mo, d) ∈ MAGIC_MAP)
    (huniq : ∀ md ∈ MAGIC_MAP, md.1 = mo → md.2 = d)
    (hsep : ∀ md ∈ MAGIC_MAP, md.1 ≠ mo → md.1 + md.2.length ≤ mo ∨ mo + d.length ≤ md.1) :
    pySlice (mainBytes rng s0) mo d.length = d := by
  have s3o := (stage3_len rng s0 hb).1
  have s3w := (stage3_len rng s0 hb).2
  rw [mainBytes_def, outBytes_def, stage4_def]
  exact chunkLoop_magic MAGIC_MAP _ BLOCK_SIZE (mixStep_length rng hb)
    (by norm_num [BLOCK_SIZE]) (stage3 rng s0).2.1 (TARGET_SIZE - (stage3 rng s0).2.1)
    (stage3 rng s0).2.2 (stage3 rng s0).1 (by rw [s3o, s3w])
    (by rw [s3w]; norm_num [BLOCK_SIZE, SECTION_SIZE, TARGET_SIZE])
    mo d k rel (by rw [s3w]; omega) hrel hd (by rw [s3w]; exact hk) hmem huniq hsep

/-- C3: for every `(offset, pattern)` pair in the signature plan (the eleven
`MAGIC_OFFSETS` entries), the completed output satisfies
`output[offset : offset + len(pattern)] = pattern`: each planted signature's
literal bytes appear at its absolute offset, overwriting whatever the section's
profile generated there. -/
theorem C3_signature_placement {σ : Type} (rng : RNG σ) (s0 : σ)
    (hb : ∀ n s, (rng.randbytes n s).1.length = n)
    (mo : Nat) (name : String) (hmem : (mo, name) ∈ MAGIC_OFFSETS) :
    pySlice (mainBytes rng s0) mo (MAGICS name).length = MAGICS name := by
  simp only [MAGIC_OFFSETS, List.mem_cons, List.not_mem_nil, or_false,
    Prod.mk.injEq] at hmem
  rcases hmem with hq | hq | hq | hq | hq | hq | hq | hq | hq | hq | hq <;>
    obtain ⟨rfl, rfl⟩ := hq
  · exact mainBytes_magic_sec1 rng s0 hb _ _ 0 0 (by decide) (by decide) (by decide)
      (by decide) (by decide) (by decide) (by decide)
  · exact mainBytes_magic_sec1 rng s0 hb _ _ 0 1024 (by decide) (by decide) (by decide)
      (by decide) (by decide) (by decide) (by decide)
  · exact mainBytes_magic_sec1 rng s0 hb _ _ 12 2097152 (by decide) (by decide) (by decide)
      (by decide) (by decide) (by decide) (by decide)
  · exact mainBytes_magic_sec1 rng s0 hb _ _ 25 0 (by decide) (by decide) (by decide)
      (by decide) (by decide) (by decide) (by decide)
  · exact mainBytes_magic_sec1 rng s0 hb _ _ 50 0 (by decide) (by decide) (by decide)
      (by decide) (by decide) (by decide) (by decide)
  · exact mainBytes_magic_sec2 rng s0 hb _ _ 19 1048576 (by decide) (by decide) (by decide)
      (by decide) (by decide) (by decide) (by decide)
  · exact mainBytes_magic_sec2 rng s0 hb _ _ 61 0 (by decide) (by decide) (by decide)
      (by decide) (by decide) (by decide) (by decide)
  · exact mainBytes_magic_sec3 rng s0 hb _ _ 0 0 (by decide) (by decide) (by decide)
      (by decide) (by decide) (by decide) (by decide)
  · exact mainBytes_magic_sec3 rng s0 hb _ _ 59 2097152 (by decide) (by decide) (by decide)
      (by decide) (by decide) (by decide) (by decide)
  · exact mainBytes_magic_sec4 rng s0 hb _ _ 132 0 (by decide) (by decide) (by decide)
      (by decide) (by decide) (by decide) (by decide)
  · exact mainBytes_magic_sec4 rng s0 hb _ _ 255 1047552 (by decide) (by decide) (by decide)
      (by decide) (by decide) (by decide) (by decide)

/-! ## Laws of the concrete instance -/

theorem lcgRandbytes_length : ∀ (n s : Nat), (lcgRandbytes n s).1.length = n := by
  intro n
  induction n with
  | zero => intro s; rfl
  | succ k ih => intro s; simp [lcgRandbytes, ih]

theorem lcgRNG_randbytes_length : ∀ (n : Nat) (s : Nat), (lcgRNG.randbytes n s).1.length = n :=
  lcgRandbytes_length

theorem lcgRNG_randint50_le : ∀ s : Nat, (lcgRNG.randint 0 50 s).1 ≤ 50 := by
  intro s
  show 0 + lcgNext s / 65536 % (50 - 0 + 1) ≤ 50
  have h := Nat.mod_lt (lcgNext s / 65536) (show 0 < 50 - 0 + 1 by norm_num)
  omega

theorem lcgRandbytes_split : ∀ (a b s : Nat),
    (lcgRandbytes (a + b) s).1
      = (lcgRandbytes a s).1 ++ (lcgRandbytes b (lcgRandbytes a s).2).1 ∧
    (lcgRandbytes (a + b) s).2 = (lcgRandbytes b (lcgRandbytes a s).2).2 := by
  intro a
  induction a with
  | zero =>
    intro b s
    rw [Nat.zero_add]
    exact ⟨rfl, rfl⟩
  | succ k ih =>
    intro b s
    rw [Nat.succ_add]
    constructor
    · show (lcgNext s / 65536 % 256) :: (lcgRandbytes (k + b) (lcgNext s)).1 = _
      rw [(ih b (lcgNext s)).1]
      rfl
    · show (lcgRandbytes (k + b) (lcgNext s)).2 = _
      rw [(ih b (lcgNext s)).2]
      rfl

/-! ## Claim C1 -/

/-- C1: for a fixed seed (42) and the fixed built-in plan, two independent runs
of the generator produce byte-identical output: the output byte sequence is a
pure function of the seed and the plan, and in particular does not depend on
the wall-clock readings that only feed the reported statistics.  The statement
quantifies over every generator algorithm `rng`, exactly as the source leaves
`random.Random` unspecified. -/
theorem C1_determinism {σ : Type} (rng : RNG σ) (t0 t1 t0' t1' : Nat) :
    (mainRun rng 42 t0 t1).1 = (mainRun rng 42 t0' t1').1 := rfl

/-! ## Claim C2 -/

/-- C2: for every run, the total number of bytes written equals exactly
`TARGET_SIZE` (the three 256 MiB sections plus the mixed section tile
`[0, totalSize)`), and every per-chunk generator call returns exactly the
requested chunk length.  The only assumption is that the abstract
`rng.randbytes n` draw has length `n`, which is the documented behavior of
`random.Random.randbytes`. -/
theorem C2_exact_sizing {σ : Type} (rng : RNG σ) (s0 : σ)
    (hb : ∀ n s, (rng.randbytes n s).1.length = n) :
    (mainBytes rng s0).length = TARGET_SIZE
    ∧ (∀ size s, (gen_ascii_log rng size s).1.length = size)
    ∧ (∀ size s, (gen_structured_records rng size s).1.length = size)
    ∧ (∀ size s, (gen_random_data rng size s).1.length = size)
    ∧ (∀ size, (gen_zeros size).length = size) :=
  ⟨mainBytes_length rng s0 hb,
   fun size s => gen_ascii_log_length rng size s,
   fun size s => gen_structured_records_length rng size s,
   fun size s => hb size s,
   gen_zeros_length⟩

/-- Closed witness for C2 at the concrete LCG-backed generator instance. -/
theorem C2_witness :
    (mainBytes lcgRNG (lcgRNG.init 42)).length = TARGET_SIZE
    ∧ (∀ size s, (gen_ascii_log lcgRNG size s).1.length = size)
    ∧ (∀ size s, (gen_structured_records lcgRNG size s).1.length = size)
    ∧ (∀ size s, (gen_random_data lcgRNG size s).1.length = size)
    ∧ (∀ size, (gen_zeros size).length = size) :=
  C2_exact_sizing lcgRNG (lcgRNG.init 42) lcgRNG_randbytes_length

/-- Closed witness for C3 at the concrete instance: the ELF signature planted
at offset 0 appears verbatim in the output. -/
theorem C3_witness :
    pySlice (mainBytes lcgRNG (lcgRNG.init 42)) 0 (MAGICS "ELF").length = MAGICS "ELF" :=
  C3_signature_placement lcgRNG (lcgRNG.init 42) lcgRNG_randbytes_length 0 "ELF"
    (by decide)

/-! ## Claim C6 -/

/-- C6 (amended): within one `gen_structured_records` call, for every complete
32-byte record the 4-byte little-endian id strictly increases by 1 starting at
0 (record `i` carries id `i`), and the 8-byte little-endian timestamp equals
`1700000000 + id*100 + jitter` with `jitter` in `[0, 50]`.  Across the whole
256 MiB structured section this fails, because `rec_id` restarts at 0 on every
per-chunk call (see the counterexample). -/
theorem C6_structured_per_call {σ : Type} (rng : RNG σ)
    (hr : ∀ s, (rng.randint 0 50 s).1 ≤ 50) (size : Nat) (s : σ) (i : Nat)
    (h : 32 * (i + 1) ≤ size) :
    pySlice (gen_structured_records rng size s).1 (32 * i) 4 = le32 i ∧
    ∃ j, j ≤ 50 ∧
      pySlice (gen_structured_records rng size s).1 (32 * i + 4) 8
        = le64 (1700000000 + i * 100 + j) :=
  ⟨gen_structured_id_pySlice rng size s i h,
    (rng.randint 0 50 (recIterState rng i 0 s)).1, hr _,
    gen_structured_ts_pySlice rng size s i h⟩

/-- Closed witness for C6 (amended) at the concrete instance. -/
theorem C6_witness :
    pySlice (gen_structured_records lcgRNG 64 0).1 (32 * 1) 4 = le32 1 ∧
    ∃ j, j ≤ 50 ∧
      pySlice (gen_structured_records lcgRNG 64 0).1 (32 * 1 + 4) 8
        = le64 (1700000000 + 1 * 100 + j) :=
  C6_structured_per_call lcgRNG lcgRNG_randint50_le 64 0 1 (by norm_num)

/-- C6 (counterexample): in the completed output, the record starting at
absolute offset 272629760 (the first record of the second 4 MiB chunk of the
structured section, i.e. record number 131072 of the section) has id 0, not
131072: the id counter resets at every chunk boundary, so ids do not strictly
increase across the whole section as the claim states. -/
theorem C6_cex :
    pySlice (mainBytes lcgRNG (lcgRNG.init 42)) 272629760 4 = le32 0 ∧
    le32 0 ≠ le32 131072 := by
  constructor
  · have hb := lcgRNG_randbytes_length
    have s1o := (stage1_len lcgRNG (lcgRNG.init 42)).1
    have s1w := (stage1_len lcgRNG (lcgRNG.init 42)).2
    have s2len := (stage2_len lcgRNG (lcgRNG.init 42)).1
    have s3len := (stage3_len lcgRNG (lcgRNG.init 42) hb).1
    have hstep : ∀ (i n : Nat) (s : Nat),
        ((fun _ n s => gen_structured_records lcgRNG n s) i n s).1.length = n :=
      fun _ n s => gen_structured_records_length lcgRNG n s
    have hsl := chunkLoop_pySlice MAGIC_MAP (fun _ n s => gen_structured_records lcgRNG n s)
      CHUNK hstep (by norm_num [CHUNK]) 1 (stage1 lcgRNG (lcgRNG.init 42)).2.1 0 SECTION_SIZE 0
      (stage1 lcgRNG (lcgRNG.init 42)).2.2 (stage1 lcgRNG (lcgRNG.init 42)).1
      (by norm_num [CHUNK, SECTION_SIZE]) (by norm_num [CHUNK, SECTION_SIZE])
    have h2 : pySlice (stage2 lcgRNG (lcgRNG.init 42)).1 272629760 4 = le32 0 := by
      rw [stage2_def]
      have hpos : (272629760 : Nat)
          = ((stage1 lcgRNG (lcgRNG.init 42)).1.length + 1 * CHUNK) + 0 := by
        rw [s1o]; norm_num [SECTION_SIZE, CHUNK]
      rw [hpos, ← pySlice_pySlice _ ((stage1 lcgRNG (lcgRNG.init 42)).1.length + 1 * CHUNK)
        CHUNK 0 4 (by norm_num [CHUNK]), hsl, s1w]
      rw [spliceMagics_frame_cap (SECTION_SIZE + 1 * CHUNK) 0 4 CHUNK MAGIC_MAP
        ((fun _ n s => gen_structured_records lcgRNG n s) (0 + 1) CHUNK
          (stepIter (fun _ n s => gen_structured_records lcgRNG n s) CHUNK 1 0
            (stage1 lcgRNG (lcgRNG.init 42)).2.2)).1
        (hstep (0 + 1) CHUNK (stepIter (fun _ n s => gen_structured_records lcgRNG n s)
          CHUNK 1 0 (stage1 lcgRNG (lcgRNG.init 42)).2.2))
        (by decide)]
      have hid := gen_structured_id_pySlice lcgRNG CHUNK
        (stepIter (fun _ n s => gen_structured_records lcgRNG n s) CHUNK 1 0
          (stage1 lcgRNG (lcgRNG.init 42)).2.2) 0 (by norm_num [CHUNK])
      simpa using hid
    obtain ⟨t3, ht3⟩ := chunkLoop_extends MAGIC_MAP
      (fun _ n s => gen_random_data lcgRNG n s) CHUNK
      (stage2 lcgRNG (lcgRNG.init 42)).2.1 0 SECTION_SIZE 0
      (stage2 lcgRNG (lcgRNG.init 42)).2.2 (stage2 lcgRNG (lcgRNG.init 42)).1
    have h3 : pySlice (stage3 lcgRNG (lcgRNG.init 42)).1 272629760 4 = le32 0 := by
      rw [pySlice_stage_lift (stage2 lcgRNG (lcgRNG.init 42)).1
        (stage3 lcgRNG (lcgRNG.init 42)).1 t3 (by rw [stage3_def]; exact ht3) 272629760 4
        (by rw [s2len]; norm_num [SECTION_SIZE])]
      exact h2
    obtain ⟨t4, ht4⟩ := chunkLoop_extends MAGIC_MAP (mixStep lcgRNG) BLOCK_SIZE
      (stage3 lcgRNG (lcgRNG.init 42)).2.1 0
      (TARGET_SIZE - (stage3 lcgRNG (lcgRNG.init 42)).2.1) 0
      (stage3 lcgRNG (lcgRNG.init 42)).2.2 (stage3 lcgRNG (lcgRNG.init 42)).1
    rw [mainBytes_def, outBytes_def]
    rw [pySlice_stage_lift (stage3 lcgRNG (lcgRNG.init 42)).1
      (stage4 lcgRNG (lcgRNG.init 42)).1 t4 (by rw [stage4_def]; exact ht4) 272629760 4
      (by rw [s3len]; norm_num [SECTION_SIZE])]
    exact h3
  · decide

/-! ## Claim C8 -/

/-- C8: the zero profile returns exactly `length` zero bytes and consumes no
randomness (the even blocks of the mixed section pass the generator state
through untouched), and in the completed output every byte of a zero block
that is not overwritten by the planted ZIP signature at 943718400 equals 0.
Zero blocks are the even-indexed 1 MiB blocks of `[768 MiB, 1 GiB)`. -/
theorem C8_zero_profile {σ : Type} (rng : RNG σ) (s0 : σ)
    (hb : ∀ n s, (rng.randbytes n s).1.length = n) :
    (∀ size, gen_zeros size = List.replicate size 0)
    ∧ (∀ idx csz s, idx % 2 = 0 → mixStep rng idx csz s = (gen_zeros csz, s))
    ∧ (∀ p, 805306368 ≤ p → p < 1073741824 →
        ((p - 805306368) / 1048576) % 2 = 0 →
        ¬(943718400 ≤ p ∧ p < 943718416) →
        byteAt (mainBytes rng s0) p = 0) := by
  refine ⟨fun size => rfl, ?_, ?_⟩
  · intro idx csz s h
    rw [mixStep, if_pos h]
  · intro p hp1 hp2 heven hnot
    have s3o := (stage3_len rng s0 hb).1
    have s3w := (stage3_len rng s0 hb).2
    have h3S : (3 : Nat) * SECTION_SIZE = 805306368 := by norm_num [SECTION_SIZE]
    have hBS : BLOCK_SIZE = 1048576 := by norm_num [BLOCK_SIZE]
    have hTS : TARGET_SIZE = 1073741824 := by norm_num [TARGET_SIZE]
    have hELF : (MAGICS "ELF").length = 16 := by decide
    have hPNG : (MAGICS "PNG").length = 16 := by decide
    have hPDF : (MAGICS "PDF").length = 15 := by decide
    have hZIP : (MAGICS "ZIP").length = 16 := by decide
    have hJPG : (MAGICS "JPEG").length = 16 := by decide
    have hcond : ∀ md ∈ MAGIC_MAP,
        (stage3 rng s0).2.1 + ((p - 805306368) / 1048576) * BLOCK_SIZE ≤ md.1 →
        md.1 - ((stage3 rng s0).2.1 + ((p - 805306368) / 1048576) * BLOCK_SIZE) < BLOCK_SIZE →
        md.1 - ((stage3 rng s0).2.1 + ((p - 805306368) / 1048576) * BLOCK_SIZE)
          + md.2.length ≤ BLOCK_SIZE →
        (p - 805306368) % 1048576 + 1
          ≤ md.1 - ((stage3 rng s0).2.1 + ((p - 805306368) / 1048576) * BLOCK_SIZE) ∨
        md.1 - ((stage3 rng s0).2.1 + ((p - 805306368) / 1048576) * BLOCK_SIZE)
          + md.2.length ≤ (p - 805306368) % 1048576 := by
      intro md hmd h1 h2 h3
      rw [s3w, h3S, hBS] at h1 h2 h3 ⊢
      simp only [MAGIC_MAP, MAGIC_OFFSETS, List.map_cons, List.map_nil, List.mem_cons,
        List.not_mem_nil, or_false] at hmd
      rcases hmd with hq | hq | hq | hq | hq | hq | hq | hq | hq | hq | hq <;> subst hq <;>
        simp only [hELF, hPNG, hPDF, hZIP, hJPG, hTS] at h1 h2 h3 ⊢ <;> omega
    rw [mainBytes_def, outBytes_def, stage4_def]
    have hfr := chunkLoop_byteAt_frame MAGIC_MAP (mixStep rng) BLOCK_SIZE
      (mixStep_length rng hb) (by norm_num [BLOCK_SIZE])
      (stage3 rng s0).2.1 (TARGET_SIZE - (stage3 rng s0).2.1)
      (stage3 rng s0).2.2 (stage3 rng s0).1
      (by rw [s3o, s3w]) (by rw [s3w, h3S, hTS, hBS]; norm_num)
      p ((p - 805306368) / 1048576) ((p - 805306368) % 1048576)
      (by rw [s3w, h3S, hBS]; omega) (by rw [hBS]; omega)
      (by rw [s3w, h3S, hBS, hTS]; omega)
      hcond
    rw [hfr, mixStep, if_pos heven]
    have hRlt : (p - 805306368) % 1048576 < BLOCK_SIZE := by rw [hBS]; omega
    show byteAt (gen_zeros BLOCK_SIZE) ((p - 805306368) % 1048576) = 0
    rw [byteAt, gen_zeros, List.getD_eq_getElem?_getD,
      List.getElem?_replicate_of_lt hRlt]
    rfl

/-- Closed witness for C8 at the concrete instance: the first byte of the
mixed section (offset 768 MiB, inside the first zero block) is 0. -/
theorem C8_witness :
    byteAt (mainBytes lcgRNG (lcgRNG.init 42)) 805306368 = 0 :=
  (C8_zero_profile lcgRNG (lcgRNG.init 42) lcgRNG_randbytes_length).2.2 805306368
    (by norm_num) (by norm_num) (by norm_num) (by norm_num)

/-! ## Claim C10 -/

theorem pairwise_elim {α : Type} (R : α → α → Prop) (hsym : ∀ a b, R a b → R b a) :
    ∀ (l : List α), l.Pairwise R → ∀ a ∈ l, ∀ b ∈ l, a ≠ b → R a b := by
  intro l
  induction l with
  | nil => intro _ a ha; cases ha
  | cons x t ih =>
    intro hp a ha b hb hne
    rcases List.mem_cons.mp ha with rfl | ha2
    · rcases List.mem_cons.mp hb with rfl | hb2
      · exact absurd rfl hne
      · exact (List.pairwise_cons.mp hp).1 b hb2
    · rcases List.mem_cons.mp hb with rfl | hb2
      · exact hsym _ _ ((List.pairwise_cons.mp hp).1 a ha2)
      · exact ih (List.pairwise_cons.mp hp).2 a ha2 b hb2 hne

/-- C10: the per-chunk signature splice is all-or-nothing and frame-preserving.
For a chunk written at absolute offset `written` and a plan of pairwise
non-overlapping, non-empty signatures: (a) a signature whose entire span lies
within the chunk is copied verbatim; (b) every chunk byte outside the spans of
fully-contained signatures — in particular every byte in the span of a
signature that starts inside the chunk but extends past its end, which is
skipped entirely with no error — is exactly the byte the profile generator
produced. -/
theorem C10_per_chunk_splice (ms : List (Nat × List Nat)) (written : Nat) (chunk : List Nat)
    (hpw : List.Pairwise (fun a b => a.1 + a.2.length ≤ b.1 ∨ b.1 + b.2.length ≤ a.1) ms)
    (hne : ∀ md ∈ ms, 0 < md.2.length) :
    (∀ mo d, (mo, d) ∈ ms → written ≤ mo → mo - written < chunk.length →
      mo - written + d.length ≤ chunk.length →
      pySlice (spliceMagics ms written chunk) (mo - written) d.length = d)
    ∧ (∀ p, p < chunk.length →
      (∀ md ∈ ms, ¬(written ≤ md.1 ∧ md.1 - written < chunk.length ∧
        md.1 - written + md.2.length ≤ chunk.length ∧
        md.1 - written ≤ p ∧ p < md.1 - written + md.2.length)) →
      byteAt (spliceMagics ms written chunk) p = byteAt chunk p) := by
  constructor
  · intro mo d hmem hw hlt hle
    refine spliceMagics_applied written mo d ms chunk hmem ?_ ?_ hw hlt hle
    · intro md hmd hmo
      by_cases hdm : md = (mo, d)
      · rw [hdm]
      · have hR := pairwise_elim _ (fun a b hab => hab.symm.imp (fun h => h) (fun h => h))
          ms hpw md hmd (mo, d) hmem hdm
        have hR2 : md.1 + md.2.length ≤ mo ∨ mo + d.length ≤ md.1 := hR
        have hx := hne md hmd
        have hy : 0 < d.length := hne (mo, d) hmem
        omega
    · intro md hmd hmo
      by_cases hdm : md = (mo, d)
      · exact absurd (by rw [hdm]) hmo
      · have hR := pairwise_elim _ (fun a b hab => hab.symm.imp (fun h => h) (fun h => h))
          ms hpw md hmd (mo, d) hmem hdm
        exact hR
  · intro p hp hout
    have hfr := spliceMagics_frame written p 1 ms chunk (by
      intro md hmd h1 h2 h3
      have h4 := hout md hmd
      omega)
    exact byteAt_eq_of_pySlice_one _ _ p p hfr
      (by rw [spliceMagics_length]; exact hp)

/-- Closed witness for C10: a fully-contained signature is copied, and a byte
inside the span of a boundary-crossing (skipped) signature keeps its generated
value. -/
theorem C10_witness :
    pySlice (spliceMagics [(2, [1, 2, 3, 4]), (6, [9, 9, 9, 9, 9, 9])] 0
      [7, 7, 7, 7, 7, 7, 7, 7]) (2 - 0) 4 = [1, 2, 3, 4]
    ∧ byteAt (spliceMagics [(2, [1, 2, 3, 4]), (6, [9, 9, 9, 9, 9, 9])] 0
      [7, 7, 7, 7, 7, 7, 7, 7]) 7 = byteAt [7, 7, 7, 7, 7, 7, 7, 7] 7 := by
  have h := C10_per_chunk_splice [(2, [1, 2, 3, 4]), (6, [9, 9, 9, 9, 9, 9])] 0
    [7, 7, 7, 7, 7, 7, 7, 7] (by decide) (by decide)
  constructor
  · exact h.1 2 [1, 2, 3, 4] (by decide) (by decide) (by decide) (by decide)
  · exact h.2 7 (by decide) (by decide)

/-! ## Claim C4 -/

theorem chunkLoop_random_eq {σ : Type} (rng : RNG σ)
    (hz : ∀ s, rng.randbytes 0 s = ([], s))
    (hsplit : ∀ a b s, (rng.randbytes (a + b) s).1
        = (rng.randbytes a s).1 ++ (rng.randbytes b (rng.randbytes a s).2).1
      ∧ (rng.randbytes (a + b) s).2 = (rng.randbytes b (rng.randbytes a s).2).2)
    (cap : Nat) (hcap : 0 < cap) (sw size written idx : Nat) (s : σ) (out : List Nat) :
    (chunkLoop [] (fun _ n s => gen_random_data rng n s) cap written sw size idx s out).1
      = out ++ (rng.randbytes (size - sw) s).1
    ∧ (chunkLoop [] (fun _ n s => gen_random_data rng n s) cap written sw size idx s out).2.2
      = (rng.randbytes (size - sw) s).2 := by
  by_cases h : sw < size
  · rw [chunkLoop_eq_step [] _ cap written sw size idx s out h hcap]
    have hm1 := Nat.min_le_right cap (size - sw)
    have hm2 : 0 < min cap (size - sw) := lt_min hcap (by omega)
    have ih := chunkLoop_random_eq rng hz hsplit cap hcap (sw + min cap (size - sw)) size
      (written + min cap (size - sw)) (idx + 1)
      ((fun _ n (s : σ) => gen_random_data rng n s) idx (min cap (size - sw)) s).2
      (out ++ spliceMagics [] written
        ((fun _ n (s : σ) => gen_random_data rng n s) idx (min cap (size - sw)) s).1)
    have hsz : size - sw = min cap (size - sw) + (size - sw - min cap (size - sw)) := by
      omega
    have hsp := hsplit (min cap (size - sw)) (size - sw - min cap (size - sw)) s
    have hszr : size - (sw + min cap (size - sw)) = size - sw - min cap (size - sw) := by
      omega
    constructor
    · rw [ih.1, spliceMagics_nil]
      show (out ++ (rng.randbytes (min cap (size - sw)) s).1)
          ++ (rng.randbytes (size - (sw + min cap (size - sw)))
            (rng.randbytes (min cap (size - sw)) s).2).1
        = out ++ (rng.randbytes (size - sw) s).1
      rw [hszr, List.append_assoc]
      conv =>
        rhs
        rw [hsz, hsp.1]
    · rw [ih.2]
      show (rng.randbytes (size - (sw + min cap (size - sw)))
          (rng.randbytes (min cap (size - sw)) s).2).2
        = (rng.randbytes (size - sw) s).2
      rw [hszr]
      conv =>
        rhs
        rw [hsz, hsp.2]
  · rw [chunkLoop_eq_done [] _ cap written sw size idx s out (by omega)]
    have hz0 : size - sw = 0 := by omega
    rw [hz0, hz s]
    exact ⟨by simp, rfl⟩
termination_by size - sw
decreasing_by
  have hm1 := Nat.min_le_right cap (size - sw)
  have hm2 : 0 < min cap (size - sw) := lt_min hcap (by omega)
  omega

/-- C4 (amended): the generator state is shared across chunks, so for the
`Random` profile — which keeps no per-call local state — driving the writer
loop chunk-by-chunk (any chunk size) produces exactly the bytes of a single
full-length `randbytes` call appended to the output.  This chunk-size
invariance fails for the `LogText` and `StructuredRecord` profiles, whose
local timestamp and record-id counters reset on every per-chunk call (see the
counterexample). -/
theorem C4_random_chunk_agnostic {σ : Type} (rng : RNG σ)
    (hz : ∀ s, rng.randbytes 0 s = ([], s))
    (hsplit : ∀ a b s, (rng.randbytes (a + b) s).1
        = (rng.randbytes a s).1 ++ (rng.randbytes b (rng.randbytes a s).2).1
      ∧ (rng.randbytes (a + b) s).2 = (rng.randbytes b (rng.randbytes a s).2).2)
    (cap : Nat) (hcap : 0 < cap) (written sw size : Nat) (s : σ) (out : List Nat) :
    (writeSection [] (gen_random_data rng) cap written sw size s out).1
      = out ++ (rng.randbytes (size - sw) s).1 :=
  (chunkLoop_random_eq rng hz hsplit cap hcap sw size written 0 s out).1

/-- Closed witness for C4 (amended) at the concrete instance: an 8-byte random
section written in 4-byte chunks equals one 8-byte draw. -/
theorem C4_witness :
    (writeSection [] (gen_random_data lcgRNG) 4 0 0 8 42 []).1
      = [] ++ (lcgRNG.randbytes (8 - 0) 42).1 :=
  C4_random_chunk_agnostic lcgRNG (fun s => rfl)
    (fun a b s => lcgRandbytes_split a b s) 4 (by norm_num) 0 0 8 42 []

/-- C4 (counterexample): invoking `gen_structured_records` chunk-by-chunk
against the threaded state does NOT equal invoking it once for the full length:
with two 32-byte chunks the second chunk restarts at record id 0, while the
one-shot 64-byte call emits record id 1 at byte offset 32. -/
theorem C4_cex :
    (gen_structured_records lcgRNG 32 1).1
        ++ (gen_structured_records lcgRNG 32 (gen_structured_records lcgRNG 32 1).2).1
      ≠ (gen_structured_records lcgRNG 64 1).1 := by
  intro h
  have hL : pySlice ((gen_structured_records lcgRNG 32 1).1
      ++ (gen_structured_records lcgRNG 32 (gen_structured_records lcgRNG 32 1).2).1) 32 4
      = le32 0 := by
    have hshift := pySlice_append_shift (gen_structured_records lcgRNG 32 1).1
      (gen_structured_records lcgRNG 32 (gen_structured_records lcgRNG 32 1).2).1 0 4
    rw [gen_structured_records_length] at hshift
    simp only [Nat.add_zero] at hshift
    rw [hshift]
    have hid := gen_structured_id_pySlice lcgRNG 32
      (gen_structured_records lcgRNG 32 1).2 0 (by norm_num)
    simpa using hid
  have hR : pySlice (gen_structured_records lcgRNG 64 1).1 32 4 = le32 1 := by
    have hid := gen_structured_id_pySlice lcgRNG 64 1 1 (by norm_num)
    simpa using hid
  rw [h] at hL
  rw [hL] at hR
  exact absurd hR (by decide)

/-! ## Claim C5 -/

/-- C5 (amended): the code performs no plan validation whatsoever.  For every
signature plan `ms` — including plans with boundary-crossing or overlapping
signatures — the writer loop runs to completion and writes exactly
`size - sw` bytes; no construction-time check exists and no error is ever
raised.  (A signature that never fits inside a chunk is silently skipped,
never partially applied; see C10 and the counterexample.) -/
theorem C5_no_validation {σ : Type} (ms : List (Nat × List Nat)) (gen : Nat → σ → List Nat × σ)
    (cap : Nat) (hgen : ∀ n s, (gen n s).1.length = n) (hcap : 0 < cap)
    (written sw size : Nat) (s : σ) (out : List Nat) :
    (writeSection ms gen cap written sw size s out).1.length = out.length + (size - sw) ∧
    (writeSection ms gen cap written sw size s out).2.1 = written + (size - sw) :=
  chunkLoop_length ms (fun _ n s => gen n s) cap (fun _ n s => hgen n s) hcap
    written sw size 0 s out

/-- Closed witness for C5 (amended): with a plan whose single signature spans
a chunk boundary, the run still writes all 8 requested bytes. -/
theorem C5_witness :
    (writeSection [(2, List.replicate 16 55)] (fun n (s : Unit) => (gen_zeros n, s)) 4
      0 0 8 () []).1.length = 8 ∧
    (writeSection [(2, List.replicate 16 55)] (fun n (s : Unit) => (gen_zeros n, s)) 4
      0 0 8 () []).2.1 = 8 :=
  C5_no_validation [(2, List.replicate 16 55)] (fun n (s : Unit) => (gen_zeros n, s)) 4
    (fun n s => gen_zeros_length n) (by norm_num) 0 0 8 () []

/-- C5 (counterexample): a plan containing a signature whose 16-byte span at
offset 2 crosses every boundary of the 4-byte chunks is not rejected: no error
is raised before (or after) writing, the full 8 output bytes are produced, and
the signature is silently skipped (the zero profile's bytes survive intact) —
contradicting the claim that such a plan fails before any byte is written. -/
theorem C5_cex :
    (writeSection [(2, List.replicate 16 55)] (fun n (s : Unit) => (gen_zeros n, s)) 4
      0 0 8 () []).1 = List.replicate 8 0 := by
  have hv : chunkLoop [(2, List.replicate 16 55)]
      (fun _ n (s : Unit) => ((fun n (s : Unit) => (gen_zeros n, s)) n s)) 4 0 0 8 0 () []
      = (List.replicate 8 0, 8, ()) := by
    rw [chunkLoop_eq_step _ _ _ _ _ _ _ _ _ (by decide) (by decide)]
    rw [chunkLoop_eq_step _ _ _ _ _ _ _ _ _ (by decide) (by decide)]
    rw [chunkLoop_eq_done _ _ _ _ _ _ _ _ _ (by decide)]
    decide
  show (chunkLoop [(2, List.replicate 16 55)]
      (fun _ n (s : Unit) => ((fun n (s : Unit) => (gen_zeros n, s)) n s)) 4 0 0 8 0 () []).1
    = List.replicate 8 0
  rw [hv]

/-! ## Claim C7 -/

/-- C7: the known signature byte patterns match the spec's hex table, but they
are NOT all 16 bytes long: the PDF pattern (`b"%PDF-1.7\n" + 6 zero bytes`) is
only 15 bytes, although the source's own comment annotates it as 16 bytes. -/
theorem C7_magic_patterns :
    MAGICS "ELF" = [0x7f, 0x45, 0x4c, 0x46, 0x02, 0x01, 0x01, 0x00, 0, 0, 0, 0, 0, 0, 0, 0]
    ∧ MAGICS "PNG" = [0x89, 0x50, 0x4e, 0x47, 0x0d, 0x0a, 0x1a, 0x0a, 0, 0, 0, 0, 0, 0, 0, 0]
    ∧ MAGICS "PDF" = [0x25, 0x50, 0x44, 0x46, 0x2d, 0x31, 0x2e, 0x37, 0x0a, 0, 0, 0, 0, 0, 0]
    ∧ MAGICS "ZIP" = [0x50, 0x4b, 0x03, 0x04, 0, 0, 0, 0, 0, 0, 0, 0, 0, 0, 0, 0]
    ∧ MAGICS "JPEG" = [0xff, 0xd8, 0xff, 0xe0, 0, 0, 0, 0, 0, 0, 0, 0, 0, 0, 0, 0]
    ∧ (MAGICS "ELF").length = 16 ∧ (MAGICS "PNG").length = 16
    ∧ (MAGICS "PDF").length = 15 ∧ (MAGICS "ZIP").length = 16
    ∧ (MAGICS "JPEG").length = 16 := by
  decide

/-! ## Claim C9 -/

/-- C9: the fixed-layout fixture file consists, in order, of the 64-byte
header with the `"TVTS"` magic and the little-endian fields in the specified
order, the 256-byte data table of 16 index-determined entries, the literal
ASCII text block, 128 bytes of the pinned LCG stream, and a 64-byte zero
tail. -/
theorem C9_sample_layout :
    sampleFile = sampleHeader ++ sampleTable ++ sampleText ++ sampleNoise
      ++ List.replicate 64 0
    ∧ sampleHeader.length = 64
    ∧ pySlice sampleFile 0 4 = strBytes "TVTS"
    ∧ pySlice sampleFile 4 2 = [1, 5]
    ∧ pySlice sampleFile 6 2 = le16 0x0011
    ∧ pySlice sampleFile 8 1 = [3]
    ∧ pySlice sampleFile 9 3 = [0, 0, 0]
    ∧ pySlice sampleFile 12 4 = le32 64
    ∧ pySlice sampleFile 16 4 = le32 256
    ∧ pySlice sampleFile 20 2 = le16 16
    ∧ pySlice sampleFile 22 2 = le16 0xABCD
    ∧ pySlice sampleFile 24 8 = le64 1706500000
    ∧ pySlice sampleFile 32 32 = strBytes "example_data_file" ++ List.replicate 15 0
    ∧ sampleTable.length = 256
    ∧ ((List.range 16).all
        (fun i => pySlice sampleFile (64 + 16 * i) 16 == sampleEntry i)) = true
    ∧ pySlice sampleFile 320 sampleText.length = sampleText
    ∧ sampleNoise.length = 128
    ∧ pySlice sampleFile (320 + sampleText.length) 128 = lcgBytes 128 0xDEADBEEF
    ∧ pySlice sampleFile (320 + sampleText.length + 128) 64 = List.replicate 64 0
    ∧ sampleFile.length = 64 + 256 + sampleText.length + 128 + 64 := by
  decide
